import Mathlib

/-
  Verification development for the Essbase calc-script linter core
  (src/parser.ts, src/rules.ts, src/linter.ts).

  The TypeScript scanners walk each line with a cursor `i` and a handful of
  nested `while` loops (block-comment skipping, string-literal skipping,
  keyword consumption).  Here each line scanner is a single structurally
  recursive function over the line's character list; the control position of
  the source's nested loops is made explicit as a `LineMode`:
    .code     - the main loop body, outside comments and strings
    .comment  - inside a /* block comment (the source's `inBlockComment` branch)
    .strLit   - inside a double-quoted string (the source's inner string `while`)
    .skip k   - consuming k+1 characters blindly (the source's cursor jumps
                `i += lexeme.length` and `i = j + 1`)
  Columns are threaded explicitly, one `+ 1` per consumed character, matching
  the source's cursor arithmetic.  Machine strings are `List Char`.
-/

/-- JS `\s` whitespace class, by code point: tab through carriage return,
space, NBSP, Ogham space, the U+2000 block, line/paragraph separators,
narrow/medium math spaces, ideographic space, and the BOM. -/
def isWS (c : Char) : Bool :=
  (9 ≤ c.val && c.val ≤ 13) || c.val = 32 || c.val = 0xa0 || c.val = 0x1680 ||
  (0x2000 ≤ c.val && c.val ≤ 0x200a) || c.val = 0x2028 || c.val = 0x2029 ||
  c.val = 0x202f || c.val = 0x205f || c.val = 0x3000 || c.val = 0xfeff

/-- JS `\w` / word-boundary character class: `[A-Za-z0-9_]`. -/
def isWordChar (c : Char) : Bool :=
  ('A' ≤ c && c ≤ 'Z') || ('a' ≤ c && c ≤ 'z') || ('0' ≤ c && c ≤ '9') || c = '_'

/-- `text.split(/\r?\n/)`: split on `\n` or `\r\n`; a lone `\r` is kept. -/
def splitLines : List Char → List (List Char)
  | [] => [[]]
  | '\r' :: '\n' :: rest => [] :: splitLines rest
  | '\n' :: rest => [] :: splitLines rest
  | c :: rest =>
    match splitLines rest with
    | [] => [[c]]
    | l :: ls => (c :: l) :: ls

/-- Control position within a line scan (see the header comment). -/
inductive LineMode : Type where
  | code : LineMode
  | comment : LineMode
  | strLit : LineMode
  | skip : Nat → LineMode
deriving DecidableEq, Repr

/- ---------------- Tokens (parser.ts) ---------------- -/

inductive TokenType : Type where
  | FIX | ENDFIX | IF | ELSEIF | ELSE | ENDIF
deriving DecidableEq, Repr, BEq

structure Token where
  type : TokenType
  line : Nat
  column : Nat
  lexeme : List Char
deriving DecidableEq, Repr

/-- Case-insensitive prefix test (JS regex `/i` flag, ASCII folding). -/
def isPrefixOfCI : List Char → List Char → Bool
  | [], _ => true
  | _ :: _, [] => false
  | a :: as, b :: bs => (a.toLower = b.toLower) && isPrefixOfCI as bs

/-- `/^\bKW\b/i.exec(line.slice(i))`: the keyword must start the slice
(case-insensitively); the leading `\b` only demands that the slice's first
character is a word character (it cannot see `line[i-1]`); the trailing `\b`
demands that the character after the keyword, if any, is not a word
character. -/
def matchKeyword (kw : List Char) (rest : List Char) : Bool :=
  (match rest with
   | [] => false
   | c :: _ => isWordChar c)
  && isPrefixOfCI kw rest
  && (match rest.drop kw.length with
      | [] => true
      | c :: _ => !(isWordChar c))

def kwElseIf : List Char := ['E', 'L', 'S', 'E', 'I', 'F']
def kwElse : List Char := ['E', 'L', 'S', 'E']
def kwIf : List Char := ['I', 'F']
def kwEndIf : List Char := ['E', 'N', 'D', 'I', 'F']
def kwFix : List Char := ['F', 'I', 'X']
def kwEndFix : List Char := ['E', 'N', 'D', 'F', 'I', 'X']

/-- The source's six sequential `tryKeyword` attempts, in its fixed priority
order (ELSEIF before ELSE, …).  Returns the token type and keyword length of
the first keyword whose regex matches at this position. -/
def tryKeywords (rest : List Char) : Option (TokenType × Nat) :=
  if matchKeyword kwElseIf rest then some (.ELSEIF, kwElseIf.length)
  else if matchKeyword kwElse rest then some (.ELSE, kwElse.length)
  else if matchKeyword kwIf rest then some (.IF, kwIf.length)
  else if matchKeyword kwEndIf rest then some (.ENDIF, kwEndIf.length)
  else if matchKeyword kwFix rest then some (.FIX, kwFix.length)
  else if matchKeyword kwEndFix rest then some (.ENDFIX, kwEndFix.length)
  else none

/-- One line of `parseEssbase`'s scan.  Returns the tokens found on the line
and the state carried to the next line: the `inBlockComment` flag plus the
(write-only) paren/bracket depths.  `.skip k` consumes `k + 1` characters and
returns to `.code`; it is entered only with keyword lengths ≥ 2, so the
cursor lands exactly past the emitted lexeme. -/
def scanLineTokens (ln : Nat) : Nat → Nat → Nat → LineMode → List Char →
    List Token × (Bool × Nat × Nat)
  | _, pd, bd, .comment, [] => ([], (true, pd, bd))
  | col, pd, bd, .comment, '*' :: '/' :: rest => scanLineTokens ln (col + 2) pd bd .code rest
  | col, pd, bd, .comment, _ :: rest => scanLineTokens ln (col + 1) pd bd .comment rest
  | _, pd, bd, .strLit, [] => ([], (false, pd, bd))
  | _, pd, bd, .strLit, '\\' :: [] => ([], (false, pd, bd))
  | col, pd, bd, .strLit, '\\' :: _ :: rest => scanLineTokens ln (col + 2) pd bd .strLit rest
  | col, pd, bd, .strLit, '"' :: rest => scanLineTokens ln (col + 1) pd bd .code rest
  | col, pd, bd, .strLit, _ :: rest => scanLineTokens ln (col + 1) pd bd .strLit rest
  | _, pd, bd, .skip _, [] => ([], (false, pd, bd))
  | col, pd, bd, .skip 0, _ :: rest => scanLineTokens ln (col + 1) pd bd .code rest
  | col, pd, bd, .skip (k + 1), _ :: rest => scanLineTokens ln (col + 1) pd bd (.skip k) rest
  | _, pd, bd, .code, [] => ([], (false, pd, bd))
  | col, pd, bd, .code, '/' :: '*' :: rest => scanLineTokens ln (col + 2) pd bd .comment rest
  | col, pd, bd, .code, '"' :: rest => scanLineTokens ln (col + 1) pd bd .strLit rest
  | col, pd, bd, .code, '(' :: rest => scanLineTokens ln (col + 1) (pd + 1) bd .code rest
  | col, pd, bd, .code, ')' :: rest => scanLineTokens ln (col + 1) (pd - 1) bd .code rest
  | col, pd, bd, .code, '[' :: rest => scanLineTokens ln (col + 1) pd (bd + 1) .code rest
  | col, pd, bd, .code, ']' :: rest => scanLineTokens ln (col + 1) pd (bd - 1) .code rest
  | col, pd, bd, .code, c :: rest =>
    match tryKeywords (c :: rest) with
    | some (ty, len) =>
      let r := scanLineTokens ln (col + 1) pd bd (.skip (len - 2)) rest
      (⟨ty, ln, col, (c :: rest).take len⟩ :: r.1, r.2)
    | none => scanLineTokens ln (col + 1) pd bd .code rest

/-- The outer per-line loop of `parseEssbase`, threading `inBlockComment`
and the depth counters across lines. -/
def scanLines : Nat → Bool → Nat → Nat → List (List Char) → List Token
  | _, _, _, _, [] => []
  | ln, inBC, pd, bd, l :: ls =>
    let r := scanLineTokens ln 0 pd bd (if inBC then .comment else .code) l
    r.1 ++ scanLines (ln + 1) r.2.1 r.2.2.1 r.2.2.2 ls

/-- `parseEssbase(text)`: tokens for FIX/ENDFIX/IF/ELSEIF/ELSE/ENDIF found
outside comments and strings. -/
def parseEssbase (text : List Char) : List Token :=
  scanLines 0 false 0 0 (splitLines text)

/- ---------------- Comma issues (parser.ts, findCommaIssues) ---------------- -/

inductive CommaIssueKind : Type where
  | trailing | double
deriving DecidableEq, Repr

structure CommaIssue where
  kind : CommaIssueKind
  line : Nat
  startCol : Nat
  endCol : Nat
deriving DecidableEq, Repr

/-- Inner loop of `findFirstSignificantCharFrom` on one line: skip block
comments and whitespace; any other character (a quote, identifier/number
start, or symbol) is significant.  Returns the significant character and its
column, or, if the line is exhausted, the block-comment flag to carry to the
next line. -/
def findFirstSigInLine : Bool → Nat → List Char → Option (Nat × Char) × Bool
  | true, _, [] => (none, true)
  | true, col, '*' :: '/' :: rest => findFirstSigInLine false (col + 2) rest
  | true, col, _ :: rest => findFirstSigInLine true (col + 1) rest
  | false, _, [] => (none, false)
  | false, col, '/' :: '*' :: rest => findFirstSigInLine true (col + 2) rest
  | false, col, c :: rest =>
    if isWS c then findFirstSigInLine false (col + 1) rest else (some (col, c), false)

/-- `findFirstSignificantCharFrom(lines, startLine, inBlockCommentStart)`,
taking the suffix of lines from `startLine` together with that line number.
Returns `(line, col, char)` of the first significant character, if any. -/
def findFirstSignificantCharFrom : List (List Char) → Nat → Bool → Option (Nat × Nat × Char)
  | [], _, _ => none
  | l :: ls, ln, inBC =>
    match findFirstSigInLine inBC 0 l with
    | (some (c, ch), _) => some (ln, c, ch)
    | (none, inBC2) => findFirstSignificantCharFrom ls (ln + 1) inBC2

/-- One line of `findCommaIssues`'s scan.  `restLines` is the list of lines
after this one (for the cross-line lookahead).  The `.skip k` mode realizes
the source's `i = j + 1` jump after a same-line double comma, consuming the
whitespace run and the second comma (`k + 1` characters). -/
def commaScanLine (ln : Nat) (restLines : List (List Char)) :
    Nat → Nat → Nat → LineMode → List Char → List CommaIssue × (Bool × Nat × Nat)
  | _, pd, bd, .comment, [] => ([], (true, pd, bd))
  | col, pd, bd, .comment, '*' :: '/' :: rest =>
    commaScanLine ln restLines (col + 2) pd bd .code rest
  | col, pd, bd, .comment, _ :: rest =>
    commaScanLine ln restLines (col + 1) pd bd .comment rest
  | _, pd, bd, .strLit, [] => ([], (false, pd, bd))
  | _, pd, bd, .strLit, '\\' :: [] => ([], (false, pd, bd))
  | col, pd, bd, .strLit, '\\' :: _ :: rest =>
    commaScanLine ln restLines (col + 2) pd bd .strLit rest
  | col, pd, bd, .strLit, '"' :: rest => commaScanLine ln restLines (col + 1) pd bd .code rest
  | col, pd, bd, .strLit, _ :: rest => commaScanLine ln restLines (col + 1) pd bd .strLit rest
  | _, pd, bd, .skip _, [] => ([], (false, pd, bd))
  | col, pd, bd, .skip 0, _ :: rest => commaScanLine ln restLines (col + 1) pd bd .code rest
  | col, pd, bd, .skip (k + 1), _ :: rest =>
    commaScanLine ln restLines (col + 1) pd bd (.skip k) rest
  | _, pd, bd, .code, [] => ([], (false, pd, bd))
  | col, pd, bd, .code, '/' :: '*' :: rest =>
    commaScanLine ln restLines (col + 2) pd bd .comment rest
  | col, pd, bd, .code, '"' :: rest => commaScanLine ln restLines (col + 1) pd bd .strLit rest
  | col, pd, bd, .code, '(' :: rest => commaScanLine ln restLines (col + 1) (pd + 1) bd .code rest
  | col, pd, bd, .code, ')' :: rest => commaScanLine ln restLines (col + 1) (pd - 1) bd .code rest
  | col, pd, bd, .code, '[' :: rest => commaScanLine ln restLines (col + 1) pd (bd + 1) .code rest
  | col, pd, bd, .code, ']' :: rest => commaScanLine ln restLines (col + 1) pd (bd - 1) .code rest
  | col, pd, bd, .code, ',' :: rest =>
    -- j = nextNonWSOnLine(line, i + 1)
    let j := col + 1 + (rest.takeWhile isWS).length
    match rest.dropWhile isWS with
    | ',' :: _ =>
      -- same-line double comma; the source jumps to i = j + 1
      let r := commaScanLine ln restLines (col + 1) pd bd (.skip (rest.takeWhile isWS).length) rest
      (⟨.double, ln, col, j + 1⟩ :: r.1, r.2)
    | ')' :: _ =>
      let r := commaScanLine ln restLines (col + 1) pd bd .code rest
      (⟨.trailing, ln, col, col + 1⟩ :: r.1, r.2)
    | ']' :: _ =>
      let r := commaScanLine ln restLines (col + 1) pd bd .code rest
      (⟨.trailing, ln, col, col + 1⟩ :: r.1, r.2)
    | [] =>
      -- end-of-line comma (inBlockComment is false on this branch)
      let issues : List CommaIssue :=
        if pd + bd = 0 then
          match findFirstSignificantCharFrom restLines (ln + 1) false with
          | some (_, sc, ch) => if ch = ',' then [⟨.double, ln, col, sc + 1⟩] else []
          | none => []
        else
          match findFirstSignificantCharFrom restLines (ln + 1) false with
          | some (_, sc, ch) =>
            if ch = ')' ∨ ch = ']' then [⟨.trailing, ln, col, col + 1⟩]
            else if ch = ',' then [⟨.double, ln, col, sc + 1⟩]
            else []
          | none => []
      let r := commaScanLine ln restLines (col + 1) pd bd .code rest
      (issues ++ r.1, r.2)
    | _ :: _ =>
      -- next non-whitespace char is ordinary content; just advance past the comma
      commaScanLine ln restLines (col + 1) pd bd .code rest
  | col, pd, bd, .code, _ :: rest => commaScanLine ln restLines (col + 1) pd bd .code rest

/-- The outer per-line loop of `findCommaIssues`, threading `inBlockComment`
and the enclosure depths across lines. -/
def commaScanLines : Bool → Nat → Nat → Nat → List (List Char) → List CommaIssue
  | _, _, _, _, [] => []
  | inBC, pd, bd, ln, l :: ls =>
    let r := commaScanLine ln ls 0 pd bd (if inBC then .comment else .code) l
    r.1 ++ commaScanLines r.2.1 r.2.2.1 r.2.2.2 (ln + 1) ls

/-- `findCommaIssues(text)`: trailing/double comma anomalies outside comments
and strings, with cross-line lookahead inside parens/brackets. -/
def findCommaIssues (text : List Char) : List CommaIssue :=
  commaScanLines false 0 0 0 (splitLines text)

/- ---------------- Rule framework (rules.ts) ---------------- -/

inductive Severity : Type where
  | error | warning | info
deriving DecidableEq, Repr

structure RuleOptions where
  enabled : Option Bool
  severity : Option Severity
deriving DecidableEq, Repr

structure Pos where
  line : Nat
  character : Nat
deriving DecidableEq, Repr

/-- A rule diagnostic; `endPos` models the source field `end`. -/
structure RuleDiagnostic where
  code : String
  message : String
  severity : Severity
  start : Pos
  endPos : Pos
deriving DecidableEq, Repr

/-- Optional context text passed for text-level rules. -/
structure RuleContext where
  text : List Char
deriving DecidableEq, Repr

structure Rule where
  id : String
  description : String
  apply : List Token → RuleOptions → Option RuleContext → List RuleDiagnostic

/- ---------------- FIX/ENDFIX balance rule ---------------- -/

/-- Token-stream loop of `fixEndfixBalanceRule.apply`: FIX pushes, ENDFIX
pops or reports `unmatchedEndfix`.  The stack's head is the most recently
pushed token (the end of the source's array).  Returns the in-order
diagnostics and the final stack. -/
def fixLoop (options : RuleOptions) : List Token → List Token → List RuleDiagnostic × List Token
  | stack, [] => ([], stack)
  | stack, t :: ts =>
    match t.type with
    | .FIX => fixLoop options (t :: stack) ts
    | .ENDFIX =>
      match stack with
      | [] =>
        let r := fixLoop options [] ts
        (⟨"essbase.fix.unmatchedEndfix", "Unmatched ENDFIX — no preceding FIX.",
          options.severity.getD .error, ⟨t.line, t.column⟩,
          ⟨t.line, t.column + t.lexeme.length⟩⟩ :: r.1, r.2)
      | _ :: rest => fixLoop options rest ts
    | _ => fixLoop options stack ts

def missingEndfixDiag (options : RuleOptions) (t : Token) : RuleDiagnostic :=
  ⟨"essbase.fix.missingEndfix", "Missing ENDFIX for this FIX.",
   options.severity.getD .error, ⟨t.line, t.column⟩, ⟨t.line, t.column + t.lexeme.length⟩⟩

/-- `fixEndfixBalanceRule.apply`: after the loop, every token left on the
stack (iterated oldest-first, i.e. our stack reversed) reports
`missingEndfix`. -/
def fixEndfixApply (tokens : List Token) (options : RuleOptions) : List RuleDiagnostic :=
  let r := fixLoop options [] tokens
  r.1 ++ r.2.reverse.map (missingEndfixDiag options)

def fixEndfixBalanceRule : Rule :=
  ⟨"essbase.fix.balance",
   "Every FIX must be closed by an ENDFIX; ENDFIX must have a preceding FIX.",
   fun tokens options _ => fixEndfixApply tokens options⟩

/- ---------------- IF/ELSEIF/ELSE/ENDIF balance rule ---------------- -/

structure Frame where
  ifToken : Token
  elseSeen : Bool
deriving DecidableEq, Repr

/-- Token-stream loop of `ifElseEndifBalanceRule.apply` over a stack of
frames (head = top = most recent IF). -/
def ifLoop (options : RuleOptions) : List Frame → List Token → List RuleDiagnostic × List Frame
  | stack, [] => ([], stack)
  | stack, t :: ts =>
    match t.type with
    | .IF => ifLoop options (⟨t, false⟩ :: stack) ts
    | .ELSEIF =>
      match stack with
      | [] =>
        let r := ifLoop options [] ts
        (⟨"essbase.if.unexpectedElseif", "ELSEIF found outside of an IF block.",
          options.severity.getD .error, ⟨t.line, t.column⟩,
          ⟨t.line, t.column + t.lexeme.length⟩⟩ :: r.1, r.2)
      | _ :: _ => ifLoop options stack ts
    | .ELSE =>
      match stack with
      | [] =>
        let r := ifLoop options [] ts
        (⟨"essbase.if.unexpectedElse", "ELSE found outside of an IF block.",
          options.severity.getD .error, ⟨t.line, t.column⟩,
          ⟨t.line, t.column + t.lexeme.length⟩⟩ :: r.1, r.2)
      | top :: rest =>
        if top.elseSeen then
          let r := ifLoop options (top :: rest) ts
          (⟨"essbase.if.duplicateElse", "Duplicate ELSE in the same IF block.",
            options.severity.getD .error, ⟨t.line, t.column⟩,
            ⟨t.line, t.column + t.lexeme.length⟩⟩ :: r.1, r.2)
        else ifLoop options (⟨top.ifToken, true⟩ :: rest) ts
    | .ENDIF =>
      match stack with
      | [] =>
        let r := ifLoop options [] ts
        (⟨"essbase.if.unmatchedEndif", "Unmatched ENDIF — no preceding IF.",
          options.severity.getD .error, ⟨t.line, t.column⟩,
          ⟨t.line, t.column + t.lexeme.length⟩⟩ :: r.1, r.2)
      | _ :: rest => ifLoop options rest ts
    | _ => ifLoop options stack ts

def missingEndifDiag (options : RuleOptions) (f : Frame) : RuleDiagnostic :=
  ⟨"essbase.if.missingEndif", "Missing ENDIF for this IF.",
   options.severity.getD .error, ⟨f.ifToken.line, f.ifToken.column⟩,
   ⟨f.ifToken.line, f.ifToken.column + f.ifToken.lexeme.length⟩⟩

/-- `ifElseEndifBalanceRule.apply`: remaining frames (oldest first) report
`missingEndif`. -/
def ifElseEndifApply (tokens : List Token) (options : RuleOptions) : List RuleDiagnostic :=
  let r := ifLoop options [] tokens
  r.1 ++ r.2.reverse.map (missingEndifDiag options)

def ifElseEndifBalanceRule : Rule :=
  ⟨"essbase.if.balance",
   "IF chains must be balanced; ELSEIF is allowed inside IF; only one ELSE per IF; ENDIF must close an IF.",
   fun tokens options _ => ifElseEndifApply tokens options⟩

/- ---------------- Rogue comma rule ---------------- -/

/-- `rogueCommaRule.apply`: bail out when no context was supplied or its text
is empty (the JS guard `if (!context?.text) return diags` — the empty string
is falsy); otherwise map each comma issue to a diagnostic. -/
def rogueCommaApply (_tokens : List Token) (options : RuleOptions)
    (context : Option RuleContext) : List RuleDiagnostic :=
  match context with
  | none => []
  | some ctx =>
    if ctx.text = [] then []
    else
      (findCommaIssues ctx.text).map fun issue =>
        if issue.kind = .trailing then
          ⟨"essbase.comma.trailing", "Trailing comma before closing bracket/parenthesis.",
           options.severity.getD .warning, ⟨issue.line, issue.startCol⟩, ⟨issue.line, issue.endCol⟩⟩
        else
          ⟨"essbase.comma.double", "Consecutive commas detected.",
           options.severity.getD .warning, ⟨issue.line, issue.startCol⟩, ⟨issue.line, issue.endCol⟩⟩

def rogueCommaRule : Rule :=
  ⟨"essbase.syntax.rogueComma",
   "Detect trailing commas before ) or ] and double commas.",
   rogueCommaApply⟩

/- ---------------- Placeholder nesting rule and registry ---------------- -/

def nestedFixOrderRule : Rule :=
  ⟨"essbase.fix.nesting", "Disallow overlapping FIX blocks (placeholder).",
   fun _ _ _ => []⟩

def ALL_RULES : List Rule :=
  [fixEndfixBalanceRule, ifElseEndifBalanceRule, rogueCommaRule, nestedFixOrderRule]

/- ---------------- Linter (linter.ts, lintDocument) ---------------- -/

inductive VsSeverity : Type where
  | Error | Warning | Information | Hint
deriving DecidableEq, Repr

/-- The collaborator-facing diagnostic built by `push` in `lintDocument`. -/
structure VsDiagnostic where
  start : Pos
  endPos : Pos
  message : String
  severity : VsSeverity
  code : String
  source : String
deriving DecidableEq, Repr

def toVscodeSeverity : Option Severity → VsSeverity
  | some .warning => .Warning
  | some .info => .Information
  | _ => .Error

def pushDiag (rd : RuleDiagnostic) : VsDiagnostic :=
  ⟨rd.start, rd.endPos, rd.message, toVscodeSeverity (some rd.severity), rd.code, "Essbase Linter"⟩

/-- `ruleConfig[rule.id]`, the per-rule configuration lookup (the host's
configuration object modelled as an association list). -/
def lookupRuleConfig (ruleConfig : List (String × RuleOptions)) (id : String) :
    Option RuleOptions :=
  (ruleConfig.find? fun p => p.1 = id).map fun p => p.2

/-- The `?? { enabled: true, severity: 'error' }` fallback in `lintDocument`. -/
def fallbackOptions : RuleOptions := ⟨some true, some .error⟩

/-- `lintDocument`'s core: parse the document text once, then run every rule
that is not explicitly disabled and concatenate the converted diagnostics.
The host-API shell (languageId gate, configuration retrieval, publishing to
the diagnostic collection) is outside the core; the document text and the
configuration map are taken as inputs.  Note the source invokes
`rule.apply(tokens, rc)` with no third argument, so every rule receives an
absent context. -/
def lintDocument (ruleConfig : List (String × RuleOptions)) (text : List Char) :
    List VsDiagnostic :=
  let tokens := parseEssbase text
  ALL_RULES.foldl
    (fun diags rule =>
      let rc := (lookupRuleConfig ruleConfig rule.id).getD fallbackOptions
      if rc.enabled = some false then diags
      else diags ++ (rule.apply tokens rc none).map pushDiag)
    []

/- ---------------- Specification-side definitions ---------------- -/

/-- Number of tokens of a given type in a stream. -/
def countTokenType (ty : TokenType) (tokens : List Token) : Nat :=
  tokens.countP fun t => t.type = ty

/-- Modelled from the claim's words: the number of ENDFIX tokens that
successfully match (pop) a FIX, simulated with just the open-FIX depth. -/
def matchedEndfixCount : Nat → List Token → Nat
  | _, [] => 0
  | d, t :: ts =>
    match t.type with
    | .FIX => matchedEndfixCount (d + 1) ts
    | .ENDFIX =>
      match d with
      | 0 => matchedEndfixCount 0 ts
      | k + 1 => 1 + matchedEndfixCount k ts
    | _ => matchedEndfixCount d ts

/-- Modelled from the claim's words: FIX/ENDFIX occurrences are properly
ordered — reading left to right, no ENDFIX appears with no FIX open. -/
def prefixBalanced : Nat → List Token → Bool
  | _, [] => true
  | d, t :: ts =>
    match t.type with
    | .FIX => prefixBalanced (d + 1) ts
    | .ENDFIX =>
      match d with
      | 0 => false
      | k + 1 => prefixBalanced k ts
    | _ => prefixBalanced d ts

/-- Modelled from the claim's words: how many ELSE tokens arrive while the
top conditional frame's else-seen flag is already set.  The frame stack is
abstracted to its else-seen flags. -/
def dupElseCount : List Bool → List Token → Nat
  | _, [] => 0
  | bs, t :: ts =>
    match t.type with
    | .IF => dupElseCount (false :: bs) ts
    | .ELSE =>
      match bs with
      | [] => dupElseCount [] ts
      | b :: rest => (if b then 1 else 0) + dupElseCount (true :: rest) ts
    | .ENDIF =>
      match bs with
      | [] => dupElseCount [] ts
      | _ :: rest => dupElseCount rest ts
    | _ => dupElseCount bs ts

/-- A `*/` occurs somewhere in the line (used to state when a block comment
stays open to the end of the line). -/
def hasCommentEnd : List Char → Bool
  | '*' :: '/' :: _ => true
  | _ :: rest => hasCommentEnd rest
  | [] => false

/- ---------------- Helper lemmas ---------------- -/

/-- Every trailing-comma issue produced within one line spans exactly the
comma: all three `trailing` pushes in the source use `endCol = startCol + 1`.
(The two `double` pushes use the triggering comma's column instead.) -/
theorem commaScanLine_trailing_span (ln : Nat) (rl : List (List Char)) (col pd bd : Nat)
    (m : LineMode) (cs : List Char) :
    ∀ issue ∈ (commaScanLine ln rl col pd bd m cs).1,
      issue.kind = CommaIssueKind.trailing → issue.endCol = issue.startCol + 1 := by
  induction col, pd, bd, m, cs using commaScanLine.induct ln rl <;>
    simp_all [commaScanLine]
  rename_i col pd bd rest hws ih
  rw [List.dropWhile_eq_nil_iff.mpr hws]
  intro issue h hk
  rcases List.mem_append.mp h with h1 | h1
  · repeat' split at h1
    all_goals simp_all
  · exact ih issue h1 hk

theorem commaScanLines_trailing_span :
    ∀ (lines : List (List Char)) (inBC : Bool) (pd bd ln : Nat),
      ∀ issue ∈ commaScanLines inBC pd bd ln lines,
        issue.kind = CommaIssueKind.trailing → issue.endCol = issue.startCol + 1 := by
  intro lines
  induction lines with
  | nil => intro _ _ _ _ issue h; simp [commaScanLines] at h
  | cons l ls ih =>
    intro inBC pd bd ln issue h hk
    simp only [commaScanLines, List.mem_append] at h
    rcases h with h | h
    · exact commaScanLine_trailing_span ln ls 0 pd bd _ l issue h hk
    · exact ih _ _ _ _ issue h hk

/-- Loop invariant for the FIX/ENDFIX rule: final open-stack size plus the
number of matched ENDFIX equals the initial size plus the number of FIX. -/
theorem fixLoop_stack_length (options : RuleOptions) :
    ∀ (ts : List Token) (stack : List Token),
      (fixLoop options stack ts).2.length + matchedEndfixCount stack.length ts
        = stack.length + countTokenType .FIX ts := by
  intro ts
  induction ts with
  | nil => intro stack; simp [fixLoop, matchedEndfixCount, countTokenType]
  | cons t ts ih =>
    intro stack
    cases h : t.type
    case FIX =>
      have h1 := ih (t :: stack)
      simp [fixLoop, h, matchedEndfixCount, countTokenType, List.countP_cons] at h1 ⊢
      omega
    case ENDFIX =>
      cases stack with
      | nil =>
        have h1 := ih []
        simp [fixLoop, h, matchedEndfixCount, countTokenType, List.countP_cons] at h1 ⊢
        omega
      | cons x rest =>
        have h1 := ih rest
        simp [fixLoop, h, matchedEndfixCount, countTokenType, List.countP_cons] at h1 ⊢
        omega
    all_goals
      have h1 := ih stack
    all_goals
      simp [fixLoop, h, matchedEndfixCount, countTokenType, List.countP_cons] at h1 ⊢
    all_goals omega

/-- The in-loop diagnostics of the FIX/ENDFIX rule are all `unmatchedEndfix`;
none carries the `missingEndfix` code. -/
theorem fixLoop_loop_codes (options : RuleOptions) :
    ∀ (ts : List Token) (stack : List Token),
      ((fixLoop options stack ts).1.countP fun d => d.code == "essbase.fix.missingEndfix") = 0 := by
  intro ts
  induction ts with
  | nil => intro stack; simp [fixLoop]
  | cons t ts ih =>
    intro stack
    cases h : t.type <;> cases stack <;>
      simp_all [fixLoop, List.countP_cons] <;> exact ih _

/-- Under proper ordering every ENDFIX finds an open FIX, so the matched
count is the full ENDFIX count. -/
theorem matchedEndfix_of_prefixBalanced :
    ∀ (ts : List Token) (d : Nat), prefixBalanced d ts = true →
      matchedEndfixCount d ts = countTokenType .ENDFIX ts := by
  intro ts
  induction ts with
  | nil => intro d _; simp [matchedEndfixCount, countTokenType]
  | cons t ts ih =>
    intro d hb
    cases h : t.type <;> cases d <;>
      simp_all [prefixBalanced, matchedEndfixCount, countTokenType, List.countP_cons] <;>
      omega

/-- The conditional rule's loop emits one `duplicateElse` per ELSE that
arrives while the top frame's else-seen flag is set, and no others; the
frame stack abstracts to its flags. -/
theorem ifLoop_dup_count (options : RuleOptions) :
    ∀ (ts : List Token) (stack : List Frame),
      ((ifLoop options stack ts).1.countP fun d => d.code == "essbase.if.duplicateElse")
        = dupElseCount (stack.map Frame.elseSeen) ts := by
  intro ts
  induction ts with
  | nil => intro stack; simp [ifLoop, dupElseCount]
  | cons t ts ih =>
    intro stack
    cases h : t.type
    case IF =>
      have h1 := ih (⟨t, false⟩ :: stack)
      simp_all [ifLoop, dupElseCount, List.countP_cons]
    case ELSE =>
      cases stack with
      | nil =>
        have h1 := ih []
        simp_all [ifLoop, dupElseCount, List.countP_cons]
      | cons top rest =>
        cases he : top.elseSeen
        · have h1 := ih (⟨top.ifToken, true⟩ :: rest)
          simp_all [ifLoop, dupElseCount, List.countP_cons]
        · have h1 := ih (top :: rest)
          simp_all [ifLoop, dupElseCount, List.countP_cons]
          omega
    case ENDIF =>
      cases stack with
      | nil =>
        have h1 := ih []
        simp_all [ifLoop, dupElseCount, List.countP_cons]
      | cons top rest =>
        have h1 := ih rest
        simp_all [ifLoop, dupElseCount, List.countP_cons]
    case ELSEIF =>
      cases stack with
      | nil =>
        have h1 := ih []
        simp_all [ifLoop, dupElseCount, List.countP_cons]
      | cons top rest =>
        have h1 := ih (top :: rest)
        simp_all [ifLoop, dupElseCount, List.countP_cons]
    all_goals
      have h1 := ih stack
    all_goals simp_all [ifLoop, dupElseCount, List.countP_cons]

/-- Every diagnostic of the FIX/ENDFIX rule carries the configured severity
when one is configured (`options.severity ?? 'error'`). -/
theorem fixEndfixApply_severity (options : RuleOptions) (s : Severity)
    (hs : options.severity = some s) :
    ∀ (tokens : List Token) (d : RuleDiagnostic), d ∈ fixEndfixApply tokens options →
      d.severity = s := by
  have hloop : ∀ (ts : List Token) (stack : List Token) (d : RuleDiagnostic),
      d ∈ (fixLoop options stack ts).1 → d.severity = s := by
    intro ts
    induction ts with
    | nil => intro stack d hd; simp [fixLoop] at hd
    | cons t ts ih =>
      intro stack d hd
      cases h : t.type <;> cases stack <;> simp_all [fixLoop, hs] <;>
        first
        | exact ih _ _ hd
        | (rcases hd with rfl | hd
           · rfl
           · exact ih _ _ hd)
  intro tokens d hd
  rcases List.mem_append.mp hd with hd | hd
  · exact hloop tokens [] d hd
  · rcases List.mem_map.mp hd with ⟨t, _, rfl⟩
    simp [missingEndfixDiag, hs]

/-- Every diagnostic of the conditional rule carries the configured severity
when one is configured. -/
theorem ifElseEndifApply_severity (options : RuleOptions) (s : Severity)
    (hs : options.severity = some s) :
    ∀ (tokens : List Token) (d : RuleDiagnostic), d ∈ ifElseEndifApply tokens options →
      d.severity = s := by
  have hloop : ∀ (ts : List Token) (stack : List Frame) (d : RuleDiagnostic),
      d ∈ (ifLoop options stack ts).1 → d.severity = s := by
    intro ts
    induction ts with
    | nil => intro stack d hd; simp [ifLoop] at hd
    | cons t ts ih =>
      intro stack d hd
      cases h : t.type
      case ELSE =>
        cases stack with
        | nil =>
          simp_all [ifLoop, hs]
          rcases hd with rfl | hd
          · rfl
          · exact ih _ _ hd
        | cons top rest =>
          cases he : top.elseSeen
          · simp_all [ifLoop, hs]
            exact ih _ _ hd
          · simp_all [ifLoop, hs]
            rcases hd with rfl | hd
            · rfl
            · exact ih _ _ hd
      all_goals cases stack <;> simp_all [ifLoop, hs] <;>
        first
        | exact ih _ _ hd
        | (rcases hd with rfl | hd
           · rfl
           · exact ih _ _ hd)
  intro tokens d hd
  rcases List.mem_append.mp hd with hd | hd
  · exact hloop tokens [] d hd
  · rcases List.mem_map.mp hd with ⟨f, _, rfl⟩
    simp [missingEndifDiag, hs]

/-- A complete string literal contributes no tokens: scanning resumes after
its closing quote (provided the body has no quote and no backslash). -/
theorem scan_strLit_passthrough (ln pd bd : Nat) :
    ∀ (mid : List Char) (col : Nat) (post : List Char), '"' ∉ mid → '\\' ∉ mid →
      scanLineTokens ln col pd bd .strLit (mid ++ '"' :: post)
        = scanLineTokens ln (col + mid.length + 1) pd bd .code post := by
  intro mid
  induction mid with
  | nil => intro col post _ _; simp [scanLineTokens]
  | cons c mid ih =>
    intro col post h1 h2
    have hc1 : c ≠ '"' := fun h => h1 (h ▸ List.mem_cons_self _ _)
    have hc2 : c ≠ '\\' := fun h => h2 (h ▸ List.mem_cons_self _ _)
    have ih1 := ih (col + 1) post (fun h => h1 (List.mem_cons_of_mem _ h))
      (fun h => h2 (List.mem_cons_of_mem _ h))
    cases mid with
    | nil => simp_all [scanLineTokens]
    | cons c2 mid2 =>
      simp_all [scanLineTokens]
      ring_nf

/-- A block comment closed on the same line contributes no tokens: scanning
resumes after the `*/` (provided the body contains no `*/`). -/
theorem scan_comment_passthrough (ln pd bd : Nat) :
    ∀ (mid : List Char) (col : Nat) (post : List Char), hasCommentEnd mid = false →
      scanLineTokens ln col pd bd .comment (mid ++ '*' :: '/' :: post)
        = scanLineTokens ln (col + mid.length + 2) pd bd .code post := by
  intro mid
  induction mid with
  | nil => intro col post _; simp [scanLineTokens]
  | cons c mid ih =>
    intro col post h
    cases mid with
    | nil =>
      by_cases hc : c = '*'
      · subst hc
        simp_all [scanLineTokens, hasCommentEnd]
      · simp_all [scanLineTokens, hasCommentEnd]
    | cons c2 mid2 =>
      have ih1 := ih (col + 1) post
      by_cases hc : c = '*' ∧ c2 = '/'
      · simp_all [hasCommentEnd]
      · simp_all [scanLineTokens, hasCommentEnd]
        ring_nf

/-- A line scanned entirely inside a block comment (no `*/` on it) yields no
tokens and leaves the comment open for the next line. -/
theorem scan_comment_stays_open (ln pd bd : Nat) :
    ∀ (l : List Char) (col : Nat), hasCommentEnd l = false →
      scanLineTokens ln col pd bd .comment l = ([], (true, pd, bd)) := by
  intro l
  induction l with
  | nil => intro col _; simp [scanLineTokens]
  | cons c l ih =>
    intro col h
    cases l with
    | nil =>
      simp_all [scanLineTokens, hasCommentEnd]
    | cons c2 l2 =>
      by_cases hc : c = '*' ∧ c2 = '/'
      · simp_all [hasCommentEnd]
      · simp_all [scanLineTokens, hasCommentEnd]

/-- Text with no line breaks splits into a single line. -/
theorem splitLines_single :
    ∀ (cs : List Char), '\n' ∉ cs → '\r' ∉ cs → splitLines cs = [cs] := by
  intro cs
  induction cs with
  | nil => intro _ _; simp [splitLines]
  | cons c cs ih =>
    intro h1 h2
    have hc1 : c ≠ '\n' := fun h => h1 (h ▸ List.mem_cons_self _ _)
    have hc2 : c ≠ '\r' := fun h => h2 (h ▸ List.mem_cons_self _ _)
    have ih1 := ih (fun h => h1 (List.mem_cons_of_mem _ h)) (fun h => h2 (List.mem_cons_of_mem _ h))
    cases cs with
    | nil => simp_all [splitLines]
    | cons c2 cs2 => simp_all [splitLines]

/- ---------------- Claim theorems ---------------- -/

/-- C1 (code-bug evidence): structural keywords are supposed to match with
both-side word boundaries, so a keyword embedded in a larger identifier must
never produce a token.  The scanner however runs each keyword regex on
`line.slice(i)`, so the leading `\b` cannot see the character before the
slice: `PREFIX` yields a FIX token at line 0, column 3.  The trailing
boundary does hold: `FIXY` yields nothing. -/
theorem c1_code_eval :
    parseEssbase ("PREFIX".data) = [⟨.FIX, 0, 3, "FIX".data⟩]
    ∧ parseEssbase ("FIXY".data) = [] := by decide

/-- C2 (code-bug evidence): the text `(a,)` carries a trailing-comma issue,
yet the full lint pass produces no diagnostic at all for it — `lintDocument`
invokes `rule.apply(tokens, rc)` without the raw-text context, so the comma
rule reports nothing. -/
theorem c2_code_eval :
    findCommaIssues ("(a,)".data) = [⟨.trailing, 0, 2, 3⟩]
    ∧ lintDocument [] ("(a,)".data) = [] := by decide

/-- C3 counterexample: in `a,\n,` the triggering second comma lies on the
next line, so per the claim the span should cover just the comma
(`endCol = startCol + 1 = 2`); the code instead uses the later line's column
(`0 + 1`), producing `endCol = 1`. -/
theorem c3_counterexample :
    findCommaIssues ("a,\n,".data) = [⟨.double, 0, 1, 1⟩] ∧ (1 : Nat) ≠ 1 + 1 := by decide

/-- C3 amended: a trailing issue always spans exactly the comma
(`endCol = startCol + 1`), whether the closing `)`/`]` lies on the same or a
later line; a double issue ends at the triggering comma's column + 1, both
same-line (`a,,b`) and cross-line (`a,\n,`, where that column is taken from
the later line even though `line`/`startCol` anchor the first comma); a
same-line trailing comma does not extend to the `)` (`(a, )`). -/
theorem c3_amended :
    (∀ (text : List Char) (issue : CommaIssue), issue ∈ findCommaIssues text →
        issue.kind = CommaIssueKind.trailing → issue.endCol = issue.startCol + 1)
    ∧ findCommaIssues ("a,,b".data) = [⟨.double, 0, 1, 3⟩]
    ∧ findCommaIssues ("a,\n,".data) = [⟨.double, 0, 1, 1⟩]
    ∧ findCommaIssues ("(a, )".data) = [⟨.trailing, 0, 2, 3⟩] := by
  refine ⟨?_, by decide, by decide, by decide⟩
  intro text issue h hk
  exact commaScanLines_trailing_span (splitLines text) false 0 0 0 issue h hk

/-- C3 amended, witness at the trailing issue of `(a,)`. -/
theorem c3_amended_witness :
    (⟨CommaIssueKind.trailing, 0, 2, 3⟩ : CommaIssue).endCol
      = (⟨CommaIssueKind.trailing, 0, 2, 3⟩ : CommaIssue).startCol + 1 :=
  c3_amended.1 ("(a,)".data) ⟨CommaIssueKind.trailing, 0, 2, 3⟩ (by decide) (by decide)

/-- C4 counterexample: with an empty configuration map the linter substitutes
`{enabled: true, severity: 'error'}` for every rule, so the comma rule is not
left at its default `'warning'`: under exactly the options the lint pass
passes it (and given the text it never actually receives), its diagnostic
carries severity `error`; and the lint pass itself emits no comma diagnostic
at all. -/
theorem c4_counterexample :
    lookupRuleConfig [] rogueCommaRule.id = none
    ∧ rogueCommaRule.apply [] fallbackOptions (some ⟨"(a,)".data⟩)
        = [⟨"essbase.comma.trailing", "Trailing comma before closing bracket/parenthesis.",
            Severity.error, ⟨0, 2⟩, ⟨0, 3⟩⟩]
    ∧ Severity.error ≠ Severity.warning
    ∧ lintDocument [] ("(a,)".data) = [] := by decide

/-- C4 amended: when the configuration map has no entry for a rule, the lint
pass still applies the rule, enabled, but with the substituted options
`{enabled: true, severity: 'error'}` rather than the rule's own default
severity: the output is exactly the block-delimiter and conditional rules'
diagnostics (the comma rule contributes nothing, receiving no text context,
and the nesting placeholder nothing), and every diagnostic carries severity
`error`. -/
theorem c4_amended :
    (∀ (text : List Char), lintDocument [] text
        = (fixEndfixApply (parseEssbase text) fallbackOptions).map pushDiag
          ++ (ifElseEndifApply (parseEssbase text) fallbackOptions).map pushDiag)
    ∧ (∀ (text : List Char),
        ((lintDocument [] text).all fun d => d.severity == VsSeverity.Error) = true) := by
  have h1 : ∀ (text : List Char), lintDocument [] text
      = (fixEndfixApply (parseEssbase text) fallbackOptions).map pushDiag
        ++ (ifElseEndifApply (parseEssbase text) fallbackOptions).map pushDiag := by
    intro text
    simp [lintDocument, ALL_RULES, lookupRuleConfig, fallbackOptions,
      fixEndfixBalanceRule, ifElseEndifBalanceRule, rogueCommaRule, nestedFixOrderRule,
      rogueCommaApply]
  refine ⟨h1, ?_⟩
  intro text
  rw [h1 text]
  simp only [List.all_append, Bool.and_eq_true, List.all_eq_true]
  constructor <;> intro d hd
  · rcases List.mem_map.mp hd with ⟨rd, hrd, rfl⟩
    have hsev := fixEndfixApply_severity fallbackOptions .error rfl _ _ hrd
    simp [pushDiag, toVscodeSeverity, hsev]
  · rcases List.mem_map.mp hd with ⟨rd, hrd, rfl⟩
    have hsev := ifElseEndifApply_severity fallbackOptions .error rfl _ _ hrd
    simp [pushDiag, toVscodeSeverity, hsev]

/-- C5: the number of `missingEndfix` diagnostics of the block-delimiter
rule plus the number of ENDFIX tokens that successfully matched a FIX equals
the number of FIX tokens (i.e. missing = #FIX − #matched), and it is zero
when the FIX and ENDFIX counts are equal and properly ordered. -/
theorem c5_fix_balance_count :
    ∀ (tokens : List Token) (options : RuleOptions),
      ((fixEndfixApply tokens options).countP fun d => d.code == "essbase.fix.missingEndfix")
          + matchedEndfixCount 0 tokens = countTokenType .FIX tokens
      ∧ (prefixBalanced 0 tokens = true →
          countTokenType .FIX tokens = countTokenType .ENDFIX tokens →
          ((fixEndfixApply tokens options).countP
            fun d => d.code == "essbase.fix.missingEndfix") = 0) := by
  intro tokens options
  have hmain : ((fixEndfixApply tokens options).countP
      fun d => d.code == "essbase.fix.missingEndfix") = (fixLoop options [] tokens).2.length := by
    simp [fixEndfixApply, List.countP_append, fixLoop_loop_codes, List.countP_map,
      missingEndfixDiag, Function.comp]
  have hlen := fixLoop_stack_length options tokens []
  simp only [List.length_nil, Nat.zero_add] at hlen
  constructor
  · omega
  · intro hb hcnt
    have hm := matchedEndfix_of_prefixBalanced tokens 0 hb
    omega

/-- C5 witness: a balanced FIX/ENDFIX pair yields zero `missingEndfix`
diagnostics. -/
theorem c5_witness :
    ((fixEndfixApply [⟨.FIX, 0, 0, "FIX".data⟩, ⟨.ENDFIX, 1, 0, "ENDFIX".data⟩]
        ⟨none, none⟩).countP fun d => d.code == "essbase.fix.missingEndfix") = 0 :=
  (c5_fix_balance_count [⟨.FIX, 0, 0, "FIX".data⟩, ⟨.ENDFIX, 1, 0, "ENDFIX".data⟩]
    ⟨none, none⟩).2 (by decide) (by decide)

/-- C6: the conditional rule emits `duplicateElse`, anchored at the offending
ELSE token's span, exactly when an ELSE is processed while the top frame's
else-seen flag is already set: the step equation shows the emission and
anchoring, the count equation shows these are the only emissions, and the
concrete run of `IF(x)\nELSE\nELSE\nENDIF` yields exactly one diagnostic,
anchored at the second ELSE. -/
theorem c6_duplicate_else :
    (∀ (options : RuleOptions) (tok : Token) (s : List Frame) (ln c : Nat) (lex : List Char)
        (ts : List Token),
        ifLoop options (⟨tok, true⟩ :: s) (⟨TokenType.ELSE, ln, c, lex⟩ :: ts)
          = (⟨"essbase.if.duplicateElse", "Duplicate ELSE in the same IF block.",
              options.severity.getD Severity.error, ⟨ln, c⟩, ⟨ln, c + lex.length⟩⟩
              :: (ifLoop options (⟨tok, true⟩ :: s) ts).1,
             (ifLoop options (⟨tok, true⟩ :: s) ts).2))
    ∧ (∀ (options : RuleOptions) (tokens : List Token),
        ((ifElseEndifApply tokens options).countP fun d => d.code == "essbase.if.duplicateElse")
          = dupElseCount [] tokens)
    ∧ ifElseEndifApply (parseEssbase ("IF(x)\nELSE\nELSE\nENDIF".data)) ⟨none, none⟩
        = [⟨"essbase.if.duplicateElse", "Duplicate ELSE in the same IF block.",
            Severity.error, ⟨2, 0⟩, ⟨2, 4⟩⟩] := by
  refine ⟨fun _ _ _ _ _ _ _ => rfl, ?_, by decide⟩
  intro options tokens
  have h1 := ifLoop_dup_count options tokens []
  simp only [List.map_nil] at h1
  simp [ifElseEndifApply, List.countP_append, List.countP_map, missingEndifDiag,
    Function.comp, h1]

/-- C7: an ELSEIF processed with at least one open IF frame produces no
diagnostic and leaves the frame stack — frames and else-seen flags —
unchanged (the top frame `f` is arbitrary, so in particular its else-seen
flag may already be true); an ELSEIF with an empty stack produces exactly an
`unexpectedElseif` diagnostic anchored at that token. -/
theorem c7_elseif_behavior :
    (∀ (options : RuleOptions) (f : Frame) (s : List Frame) (ln c : Nat) (lex : List Char)
        (ts : List Token),
        ifLoop options (f :: s) (⟨TokenType.ELSEIF, ln, c, lex⟩ :: ts)
          = ifLoop options (f :: s) ts)
    ∧ (∀ (options : RuleOptions) (ln c : Nat) (lex : List Char) (ts : List Token),
        ifLoop options [] (⟨TokenType.ELSEIF, ln, c, lex⟩ :: ts)
          = (⟨"essbase.if.unexpectedElseif", "ELSEIF found outside of an IF block.",
              options.severity.getD Severity.error, ⟨ln, c⟩, ⟨ln, c + lex.length⟩⟩
              :: (ifLoop options [] ts).1, (ifLoop options [] ts).2)) :=
  ⟨fun _ _ _ _ _ _ _ => rfl, fun _ _ _ _ _ => rfl⟩

/-- C8: tokens are never produced from inside a string literal or a block
comment: a complete one-line string literal is skipped wholesale (whatever
keywords its body holds), a one-line block comment likewise, a line wholly
inside an open block comment yields nothing and keeps the comment open, and
at the top level a document consisting of a quoted body yields no tokens. -/
theorem c8_tokens_outside_comments_strings :
    (∀ (ln col pd bd : Nat) (mid post : List Char), '"' ∉ mid → '\\' ∉ mid →
        scanLineTokens ln col pd bd .code ('"' :: (mid ++ '"' :: post))
          = scanLineTokens ln (col + mid.length + 2) pd bd .code post)
    ∧ (∀ (ln col pd bd : Nat) (mid post : List Char), hasCommentEnd mid = false →
        scanLineTokens ln col pd bd .code ('/' :: '*' :: (mid ++ '*' :: '/' :: post))
          = scanLineTokens ln (col + mid.length + 4) pd bd .code post)
    ∧ (∀ (ln col pd bd : Nat) (l : List Char), hasCommentEnd l = false →
        scanLineTokens ln col pd bd .comment l = ([], (true, pd, bd)))
    ∧ (∀ (mid : List Char), '"' ∉ mid → '\\' ∉ mid → '\n' ∉ mid → '\r' ∉ mid →
        parseEssbase ('"' :: (mid ++ ['"'])) = []) := by
  refine ⟨?_, ?_, ?_, ?_⟩
  · intro ln col pd bd mid post h1 h2
    have hp := scan_strLit_passthrough ln pd bd mid (col + 1) post h1 h2
    simp only [scanLineTokens, hp]
    ring_nf
  · intro ln col pd bd mid post h
    have hp := scan_comment_passthrough ln pd bd mid (col + 2) post h
    simp only [scanLineTokens, hp]
    ring_nf
  · intro ln col pd bd l h
    exact scan_comment_stays_open ln pd bd l col h
  · intro mid h1 h2 h3 h4
    have hsplit : splitLines ('"' :: (mid ++ ['"'])) = ['"' :: (mid ++ ['"'])] := by
      apply splitLines_single <;> simp_all
    have hp := scan_strLit_passthrough 0 0 0 mid 1 [] h1 h2
    simp [parseEssbase, hsplit, scanLines, scanLineTokens, hp]

/-- C8 witness: the keyword FIX written between quotes produces no token. -/
theorem c8_witness : parseEssbase ('"' :: ("FIX".data ++ ['"'])) = [] :=
  c8_tokens_outside_comments_strings.2.2.2 ("FIX".data)
    (by decide) (by decide) (by decide) (by decide)

/-- C9: both scanners are total Lean functions (their recursions mirror the
source loops' strictly advancing cursor), and malformed inputs — an
unterminated comment, an unterminated string, excess closing brackets —
produce ordinary results rather than errors. -/
theorem c9_totality :
    (∀ (text : List Char), ∃ tokens, parseEssbase text = tokens)
    ∧ (∀ (text : List Char), ∃ issues, findCommaIssues text = issues)
    ∧ parseEssbase ("/* FIX \"unterminated".data) = []
    ∧ parseEssbase ("\"FIX unterminated\nIF".data) = [⟨.IF, 1, 0, "IF".data⟩]
    ∧ findCommaIssues ("\"a,,".data) = []
    ∧ findCommaIssues (")))]]] ,,".data) = [⟨.double, 0, 7, 9⟩]
    ∧ findCommaIssues ("((( a,".data) = [] :=
  ⟨fun text => ⟨_, rfl⟩, fun text => ⟨_, rfl⟩, by decide, by decide, by decide,
   by decide, by decide⟩

/-- C10: the comma rule silently reports nothing when invoked without a
raw-text context or with an empty text, regardless of the token stream and
options passed. -/
theorem c10_comma_rule_no_context :
    ∀ (tokens : List Token) (options : RuleOptions),
      rogueCommaRule.apply tokens options none = []
      ∧ rogueCommaRule.apply tokens options (some ⟨[]⟩) = [] :=
  fun _ _ => ⟨rfl, rfl⟩
